import Mathlib

/-!
Verification development for the `gate` scripting-language interpreter
(scanner, recursive-descent parser, tree-walking evaluator).

The definitions below are a shallow embedding of the current module set of
the crate: `data.rs`, `error.rs`, `binary_op.rs`, `expr.rs`,
`program.rs`/`scope.rs`, `scanner.rs`, `parser.rs`.  The files `ast.rs` and
`lib.rs` in the repository are superseded snapshots of the same code
(their `BinaryOp::eval` still yields `Nil` on an invalid operation, which
the current `binary_op.rs` replaces with `ExecuteError::InvalidOperation`);
the embedding follows the current modules, which are the ones the
evaluator (`expr.rs`) and the test files (`expr_test.rs`,
`parser_test.rs`) link against.

Modelling conventions:
- Rust `f64` number payloads are modelled as `Rat`.  Every numeric literal
  appearing in the settled claims is a small dyadic rational, on which
  `f64` arithmetic and comparison are exact, so nothing settled here
  depends on floating-point rounding, NaN, signed zero, or infinities.
  `Div`/`Mod` results on a zero divisor are outside the claims.
- `HashMap<String, Data>` frames are modelled as association lists with
  unique keys; the scope chain `Vec<Scope>` is a `List` with the
  innermost frame first, so `push`/`pop` act on the head.
- Recursive interpreter loops (`while`, the parser's recursion) are given
  an explicit fuel argument; `none` / `outOfFuel` means the fuel ran out,
  which never happens for adequate fuel and is distinct from the source
  iterator finishing.
- `println` is modelled as returning `Ok(Nil)` after evaluating its
  arguments; the write to stdout is elided.
-/

namespace Gate

/-- Data values, from `data.rs` (`enum Data`). -/
inductive Data where
  | Nil : Data
  | Boolean : Bool → Data
  | Number : Rat → Data
  | Str : String → Data
deriving DecidableEq, Repr

/-- Type names, from `data.rs` (`Data::type_name`). -/
def Data.type_name : Data → String
  | .Nil => "nil"
  | .Boolean _ => "boolean"
  | .Number _ => "number"
  | .Str _ => "string"

/-- Generic truthiness helper, from `data.rs` (`Data::to_bool`).
Treats `Nil` and `Boolean(false)` as false, everything else as true.
The conditional and while evaluators do not use it. -/
def Data.to_bool : Data → Bool
  | .Nil => false
  | .Boolean false => false
  | _ => true

/-- Discriminator used to state claims: whether a value is a `Number`. -/
def Data.isNumber : Data → Bool
  | .Number _ => true
  | _ => false

/-- Binary operators, from `binary_op.rs` (`enum BinaryOp`). -/
inductive BinaryOp where
  | Add | Sub | Mul | Div | Mod
  | Eq | Lt | LtEq | Gt | GtEq
deriving DecidableEq, Repr

/-- Execution errors, from `error.rs` (`enum ExecuteError`). -/
inductive ExecuteError where
  | UndefinedVar : String → ExecuteError
  | UndefinedFunc : String → ExecuteError
  | InvalidOperation : String → BinaryOp → String → ExecuteError
deriving DecidableEq, Repr

/-- Truncated division remainder on `Rat`, modelling Rust's `%` on `f64`
(remainder with the sign of the dividend).  A zero divisor yields `0`
here where IEEE yields NaN; no settled claim evaluates `Mod`'s value. -/
def ratRem (l r : Rat) : Rat :=
  if r = 0 then 0
  else l - r * (Rat.floor (l / r) + (if l / r < 0 ∧ Rat.floor (l / r) < l / r then 1 else 0))

/-- Operator evaluation, from `binary_op.rs` (`BinaryOp::eval`).
Arithmetic and relational operators require two `Number`s; `Eq` compares
any two values structurally; every other combination is an
`InvalidOperation` error carrying both operand type names and the
operator. -/
def BinaryOp.eval (o : BinaryOp) (left right : Data) : Except ExecuteError Data :=
  match o, left, right with
  | .Add, .Number l, .Number r => .ok (.Number (l + r))
  | .Sub, .Number l, .Number r => .ok (.Number (l - r))
  | .Mul, .Number l, .Number r => .ok (.Number (l * r))
  | .Div, .Number l, .Number r => .ok (.Number (l / r))
  | .Mod, .Number l, .Number r => .ok (.Number (ratRem l r))
  | .Eq, l, r => .ok (.Boolean (l = r))
  | .Lt, .Number l, .Number r => .ok (.Boolean (l < r))
  | .LtEq, .Number l, .Number r => .ok (.Boolean (l ≤ r))
  | .Gt, .Number l, .Number r => .ok (.Boolean (r < l))
  | .GtEq, .Number l, .Number r => .ok (.Boolean (r ≤ l))
  | o, l, r => .error (.InvalidOperation l.type_name o r.type_name)

/-- Operator precedence ranks, from `binary_op.rs`
(`BinaryOp::precendence`, keeping the source's spelling).  The source
returns `u8`; the values are 0–4 so `Nat` is exact. -/
def BinaryOp.precendence : BinaryOp → Nat
  | .Add => 3
  | .Sub => 3
  | .Mul => 4
  | .Div => 4
  | .Mod => 2
  | .Eq => 0
  | .Lt => 1
  | .LtEq => 1
  | .Gt => 1
  | .GtEq => 1

/-- Expressions, from `expr.rs` (`enum Expression`). -/
inductive Expression where
  | NilLiteral : Expression
  | BooleanLiteral : Bool → Expression
  | NumberLiteral : Rat → Expression
  | StrLiteral : String → Expression
  | Variable : String → Expression
  | ParenExpr : Expression → Expression
  | Block : List Expression → Expression
  | Assignment : String → Expression → Expression
  | FunctionCall : String → List Expression → Expression
  | BinaryExpr : Expression → BinaryOp → Expression → Expression
  | IfExpr : Expression → Expression → Option Expression → Expression
  | WhileLoop : Expression → Expression → Expression

/-- One scope frame, from `scope.rs`/`program.rs` (`Scope`): a
`HashMap<String, Data>` modelled as an association list with unique keys. -/
abbrev Frame := List (String × Data)

/-- The program state, from `program.rs` (`Program` wrapping `ScopeTree`):
the stack of frames, innermost first (the reverse of the `Vec` order, so
that push and pop act on the list head). -/
abbrev Program := List Frame

/-- Lookup in one frame (`HashMap::get`). -/
def frameGet (fr : Frame) (name : String) : Option Data :=
  match fr with
  | [] => none
  | (k, d) :: rest => if k = name then some d else frameGet rest name

/-- Overwrite an existing binding in one frame (`HashMap::get_mut` + write). -/
def frameUpdate (fr : Frame) (name : String) (v : Data) : Frame :=
  match fr with
  | [] => []
  | (k, d) :: rest =>
      if k = name then (k, v) :: rest else (k, d) :: frameUpdate rest name v

/-- Fresh program state, from `Program::new` / `ScopeTree::new`: a single
empty global frame. -/
def Program.new : Program := [[]]

/-- Variable lookup, from `ScopeTree::var`: innermost frame first, first
match wins. -/
def Program.var (p : Program) (name : String) : Option Data :=
  match p with
  | [] => none
  | fr :: rest =>
      match frameGet fr name with
      | some d => some d
      | none => Program.var rest name

/-- Assignment, from `ScopeTree::set_var`: overwrite the nearest enclosing
frame that already binds the name; otherwise insert into the innermost
frame.  (The empty-stack case is unreachable in the source, which keeps at
least one frame; Rust would panic there.) -/
def Program.set_var (p : Program) (name : String) (v : Data) : Program :=
  match setExisting p with
  | some p' => p'
  | none =>
      match p with
      | [] => []
      | fr :: rest => ((name, v) :: fr) :: rest
where
  /-- The innermost-to-outermost overwrite pass of `set_var`; `none` when
  no frame binds the name. -/
  setExisting : Program → Option Program
    | [] => none
    | fr :: rest =>
        if (frameGet fr name).isSome then some (frameUpdate fr name v :: rest)
        else (setExisting rest).map (fr :: ·)

/-- Push a frame, from `Program::new_scope`. -/
def Program.new_scope (p : Program) : Program := [] :: p

/-- Pop the innermost frame, from `Program::pop_scope` (`Vec::pop`, a
no-op on an empty stack). -/
def Program.pop_scope : Program → Program
  | [] => []
  | _ :: rest => rest

deriving instance DecidableEq for Except

/-- Evaluation results, from `expr.rs` (`type Result = Result<Data, ExecuteError>`). -/
abbrev EvalResult := Except ExecuteError Data

/-- Shape of a one-step evaluator handed to the loop helpers; `none`
means the fuel ran out. -/
abbrev Ev := Expression → Program → Option (EvalResult × Program)

/-- Sequential evaluation of a block body, from the `Block` arm of
`Expression::eval`: every item is evaluated in order and `last_result` is
simply overwritten each time, so an item's error does not stop the
following items; the block's result is the final item's result (`Ok(Nil)`
for an empty list). -/
def evalSeq (ev : Ev) : List Expression → Program → EvalResult →
    Option (EvalResult × Program)
  | [], p, last => some (last, p)
  | e :: es, p, _ =>
      match ev e p with
      | none => none
      | some (r, p') => evalSeq ev es p' r

/-- Left-to-right argument evaluation, from the `FunctionCall` arm of
`Expression::eval`: the first argument error aborts (the `try!`). -/
def evalArgs (ev : Ev) : List Expression → Program → List Data →
    Option (Except ExecuteError (List Data) × Program)
  | [], p, acc => some (.ok acc, p)
  | e :: es, p, acc =>
      match ev e p with
      | none => none
      | some (.error err, p') => some (.error err, p')
      | some (.ok d, p') => evalArgs ev es p' (acc ++ [d])

/-- The `loop` of the `WhileLoop` arm of `Expression::eval`, carrying
`last_data`.  A condition error propagates through the `try!`; the loop
stops exactly when the condition value is `Boolean(false)`, returning the
carried `last_data`; otherwise `last_data` is overwritten with the body's
result — error or not — and the loop continues. -/
def evalWhile (ev : Ev) : Nat → Expression → Expression → Program → EvalResult →
    Option (EvalResult × Program)
  | 0, _, _, _, _ => none
  | f + 1, c, b, p, last =>
      match ev c p with
      | none => none
      | some (.error err, p') => some (.error err, p')
      | some (.ok d, p') =>
          if d = .Boolean false then some (last, p')
          else
            match ev b p' with
            | none => none
            | some (r, p'') => evalWhile ev f c b p'' r

/-- The evaluator, from `expr.rs` (`Expression::eval`), with explicit
fuel and explicit state threading of the scope stack. -/
def evalE : Nat → Expression → Program → Option (EvalResult × Program)
  | 0, _, _ => none
  | f + 1, e, p =>
      let ev : Ev := fun e' p' => evalE f e' p'
      match e with
      | .NilLiteral => some (.ok .Nil, p)
      | .BooleanLiteral b => some (.ok (.Boolean b), p)
      | .NumberLiteral n => some (.ok (.Number n), p)
      | .StrLiteral s => some (.ok (.Str s), p)
      | .Variable name =>
          match Program.var p name with
          | some d => some (.ok d, p)
          | none => some (.error (.UndefinedVar name), p)
      | .ParenExpr inner => ev inner p
      | .Block es =>
          match evalSeq ev es (Program.new_scope p) (.ok .Nil) with
          | none => none
          | some (r, p') => some (r, Program.pop_scope p')
      | .Assignment l r =>
          match ev r p with
          | none => none
          | some (.error err, p') => some (.error err, p')
          | some (.ok d, p') => some (.ok d, Program.set_var p' l d)
      | .FunctionCall name args =>
          if name = "println" then
            match evalArgs ev args p [] with
            | none => none
            | some (.error err, p') => some (.error err, p')
            | some (.ok _, p') => some (.ok .Nil, p')
          else some (.error (.UndefinedFunc name), p)
      | .BinaryExpr l op r =>
          match ev l p with
          | none => none
          | some (.error err, p') => some (.error err, p')
          | some (.ok ld, p') =>
              match ev r p' with
              | none => none
              | some (.error err, p'') => some (.error err, p'')
              | some (.ok rd, p'') => some (BinaryOp.eval op ld rd, p'')
      | .IfExpr c b eb =>
          match ev c p with
          | none => none
          | some (.error err, p') => some (.error err, p')
          | some (.ok d, p') =>
              if d = .Boolean false then
                match eb with
                | some el => ev el p'
                | none => some (.ok .Nil, p')
              else ev b p'
      | .WhileLoop c b => evalWhile ev f c b p (.ok .Nil)

/-! ## Scanner, from `scanner.rs` -/

/-- Tokens, from `scanner.rs` (`enum Token`). -/
inductive Token where
  | OpenParen | CloseParen | OpenCurly | CloseCurly | Comma
  | Eq | DoubleEq | Lt | LtEq | Gt | GtEq
  | Plus | Minus | Times | Divide
  | Nil | If | Else | While
  | Boolean : Bool → Token
  | Identifier : String → Token
  | Number : Rat → Token
  | String : String → Token
deriving DecidableEq, Repr

/-- Token-to-operator conversion, from `scanner.rs`
(`Token::to_binary_op`).  Note that no token maps to `BinaryOp::Mod`. -/
def Token.to_binary_op : Token → Option BinaryOp
  | .DoubleEq => some .Eq
  | .Lt => some .Lt
  | .LtEq => some .LtEq
  | .Gt => some .Gt
  | .GtEq => some .GtEq
  | .Plus => some .Add
  | .Minus => some .Sub
  | .Times => some .Mul
  | .Divide => some .Div
  | _ => none

/-- Lexical errors, from `scanner.rs` (`enum TokenError`). -/
inductive TokenError where
  | UnexpectedChar : Char → TokenError
  | IncompleteString : TokenError
  | InvalidEscape : TokenError
deriving DecidableEq, Repr

/-- Whitespace test, from `Scanner::is_space`. -/
def is_space (c : Char) : Bool :=
  c = ' ' || c = '\t' || c = '\n' || c = '\r'

/-- Identifier-character test, from `Scanner::is_alpha`. -/
def is_alpha (c : Char) : Bool :=
  c = '_' || ('a' ≤ c && c ≤ 'z') || ('A' ≤ c && c ≤ 'Z')

/-- Digit test, from `Scanner::is_digit`. -/
def is_digit (c : Char) : Bool :=
  '0' ≤ c && c ≤ '9'

/-- Numeric value of a digit string (most significant first). -/
def digitsVal (cs : List Char) : Nat :=
  cs.foldl (fun a c => 10 * a + (c.toNat - 48)) 0

/-- Word scanning, from `Scanner::read_word`: take alphanumeric
characters, then map keywords to their tokens and everything else to an
identifier token. -/
def read_word (cs : List Char) : Token × List Char :=
  let w := cs.takeWhile (fun c => is_digit c || is_alpha c)
  let rest := cs.dropWhile (fun c => is_digit c || is_alpha c)
  let t :=
    match String.mk w with
    | "nil" => Token.Nil
    | "if" => Token.If
    | "else" => Token.Else
    | "while" => Token.While
    | "true" => Token.Boolean true
    | "false" => Token.Boolean false
    | s => Token.Identifier s
  (t, rest)

/-- Number scanning, from `Scanner::read_number`: digits, then an
optional `.` followed by more digits (possibly none, as in `1.`); the
digit string is parsed as a number (`num.parse().unwrap()` on an `f64` in
the source, exact here on `Rat`). -/
def read_number (cs : List Char) : Rat × List Char :=
  let ds := cs.takeWhile is_digit
  let r1 := cs.dropWhile is_digit
  let ip : Rat := (digitsVal ds : Nat)
  match r1 with
  | '.' :: r2 =>
      let fs := r2.takeWhile is_digit
      let r3 := r2.dropWhile is_digit
      (ip + (digitsVal fs : Nat) / ((10 : Rat) ^ fs.length), r3)
  | _ => (ip, r1)

/-- String scanning, the loop of `Scanner::read_string`, with the
accumulated buffer.  A closing quote yields the string token; a backslash
must be followed by `"` or `\` (which is consumed), anything else —
including end of input — is `InvalidEscape` and the offending character
is left unconsumed; running out of input yields `IncompleteString`. -/
def read_string_go : List Char → List Char → Except TokenError Token × List Char
  | [], _ => (.error .IncompleteString, [])
  | c :: rest, acc =>
      if c = '"' then (.ok (Token.String (String.mk acc)), rest)
      else if c = '\\' then
        match rest with
        | c2 :: rest2 =>
            if c2 = '"' || c2 = '\\' then read_string_go rest2 (acc ++ [c2])
            else (.error .InvalidEscape, rest)
        | [] => (.error .InvalidEscape, [])
      else read_string_go rest (acc ++ [c])

/-- String scanning, from `Scanner::read_string`: the input starts at the
opening quote, which is skipped, then the body is scanned. -/
def read_string : List Char → Except TokenError Token × List Char
  | [] => (.error .IncompleteString, [])
  | _ :: rest => read_string_go rest []

/-- One scanner step, from `Scanner::next` (the `Iterator` impl):
skip whitespace, then dispatch on the first character.  `none` is the
iterator finishing (end of input). -/
def scanNext (cs0 : List Char) : Option (Except TokenError Token × List Char) :=
  let cs := cs0.dropWhile is_space
  match cs with
  | [] => none
  | c :: rest =>
      if c = '(' then some (.ok .OpenParen, rest)
      else if c = ')' then some (.ok .CloseParen, rest)
      else if c = '{' then some (.ok .OpenCurly, rest)
      else if c = '}' then some (.ok .CloseCurly, rest)
      else if c = ',' then some (.ok .Comma, rest)
      else if c = '=' then
        match rest with
        | '=' :: r2 => some (.ok .DoubleEq, r2)
        | _ => some (.ok .Eq, rest)
      else if c = '<' then
        match rest with
        | '=' :: r2 => some (.ok .LtEq, r2)
        | _ => some (.ok .Lt, rest)
      else if c = '>' then
        match rest with
        | '=' :: r2 => some (.ok .GtEq, r2)
        | _ => some (.ok .Gt, rest)
      else if c = '+' then
        match rest with
        | d :: _ =>
            if is_digit d then
              let (n, r') := read_number rest
              some (.ok (.Number n), r')
            else some (.ok .Plus, rest)
        | [] => some (.ok .Plus, rest)
      else if c = '-' then
        match rest with
        | d :: _ =>
            if is_digit d then
              let (n, r') := read_number rest
              some (.ok (.Number (n * (-1))), r')
            else some (.ok .Minus, rest)
        | [] => some (.ok .Minus, rest)
      else if c = '*' then some (.ok .Times, rest)
      else if c = '/' then some (.ok .Divide, rest)
      else if c = '"' then some (read_string (c :: rest))
      else if is_alpha c then
        let (t, rest') := read_word (c :: rest)
        some (.ok t, rest')
      else if is_digit c then
        let (n, rest') := read_number (c :: rest)
        some (.ok (.Number n), rest')
      else some (.error (.UnexpectedChar c), rest)

/-- The full token sequence of an input: pull `Scanner::next` until it
finishes (or the fuel runs out; each step consumes at least one
character, so fuel of the input length plus one always suffices). -/
def tokenize : Nat → List Char → List (Except TokenError Token)
  | 0, _ => []
  | f + 1, cs =>
      match scanNext cs with
      | none => []
      | some (r, rest) => r :: tokenize f rest

/-! ## Parser, from `parser.rs` -/

/-- Parse errors, from `parser.rs` (`enum ParseError`). -/
inductive ParseError where
  | ScanError : TokenError → ParseError
  | Unexpected : Token → ParseError
  | UnexpectedEOF : ParseError
deriving DecidableEq, Repr

/-- The token stream the parser consumes: the `Peekable<Scanner>` items. -/
abbrev Tokens := List (Except TokenError Token)

/-- Result of one `Parser::next` pull: the iterator finished (`eos`,
Rust's `None`), or one item together with the remaining stream;
`outOfFuel` is the embedding's fuel escape. -/
inductive ParseOut where
  | outOfFuel : ParseOut
  | eos : ParseOut
  | item : Except ParseError Expression → Tokens → ParseOut

/-- Precedence reconciliation, from `Parser::apply_precedence`: when the
right-hand side is itself a binary expression whose operator binds
strictly less tightly than `op`, rotate once so that `op` binds the inner
left operand directly; otherwise build the plain node.  There is no
recursion. -/
def apply_precedence (lhs : Expression) (op : BinaryOp) (rhs : Expression) :
    Expression :=
  match rhs with
  | .BinaryExpr lhs_r op_r rhs_r =>
      if op_r.precendence < op.precendence then
        .BinaryExpr (.BinaryExpr lhs op lhs_r) op_r rhs_r
      else .BinaryExpr lhs op rhs
  | _ => .BinaryExpr lhs op rhs

/-- Parenthesized expressions, from `Parser::parse_paren_expr`: the open
paren is already consumed; parse the inner expression and the closing
paren. -/
def parse_paren_expr (pn : Tokens → ParseOut) (ts : Tokens) : ParseOut :=
  match pn ts with
  | .outOfFuel => .outOfFuel
  | .eos => .item (.error .UnexpectedEOF) ts
  | .item (.error e) rest => .item (.error e) rest
  | .item (.ok inner) rest =>
      match rest with
      | .ok t :: r2 =>
          if t = Token.CloseParen then .item (.ok (.ParenExpr inner)) r2
          else .item (.error (.Unexpected t)) r2
      | .error e :: r2 => .item (.error (.ScanError e)) r2
      | [] => .item (.error .UnexpectedEOF) []

/-- Block parsing, the loop of `Parser::parse_block`: the open curly is
already consumed; peek for the closing curly (consuming it), report a
peeked scan error without consuming it, report end of input, and
otherwise parse one inner expression and loop. -/
def parse_block (pn : Tokens → ParseOut) :
    Nat → Tokens → List Expression → ParseOut
  | 0, _, _ => .outOfFuel
  | f + 1, ts, acc =>
      match ts with
      | [] => .item (.error .UnexpectedEOF) []
      | .error e :: r2 => .item (.error (.ScanError e)) (.error e :: r2)
      | .ok t :: r2 =>
          if t = Token.CloseCurly then .item (.ok (.Block acc)) r2
          else
            match pn (.ok t :: r2) with
            | .outOfFuel => .outOfFuel
            | .eos => .item (.error .UnexpectedEOF) (.ok t :: r2)
            | .item (.error e) rest => .item (.error e) rest
            | .item (.ok e) rest => parse_block pn f rest (acc ++ [e])

/-- The loop of `Parser::parse_expr_list`: parse one expression, then
consume one token, which must be a comma (continue) or the terminator
(done); anything else is an error. -/
def parse_expr_list_go (pn : Tokens → ParseOut) :
    Nat → Token → Tokens → List Expression →
    Except ParseError (List Expression) × Tokens ⊕ Unit
  | 0, _, _, _ => .inr ()
  | f + 1, u, ts, acc =>
      match pn ts with
      | .outOfFuel => .inr ()
      | .eos => .inl (.error .UnexpectedEOF, ts)
      | .item (.error e) rest => .inl (.error e, rest)
      | .item (.ok e) rest =>
          match rest with
          | .ok t :: r2 =>
              if t = Token.Comma then parse_expr_list_go pn f u r2 (acc ++ [e])
              else if t = u then .inl (.ok (acc ++ [e]), r2)
              else .inl (.error (.Unexpected t), r2)
          | .error e2 :: r2 => .inl (.error (.ScanError e2), r2)
          | [] => .inl (.error .UnexpectedEOF, [])

/-- Comma-separated expression lists, from `Parser::parse_expr_list`:
an immediate terminator (checked by peek, then consumed) yields the empty
list; otherwise the loop runs.  `Sum.inr ()` is the fuel escape. -/
def parse_expr_list (pn : Tokens → ParseOut) (f : Nat) (u : Token)
    (ts : Tokens) : Except ParseError (List Expression) × Tokens ⊕ Unit :=
  match ts with
  | .ok t :: r2 =>
      if t = u then .inl (.ok [], r2)
      else parse_expr_list_go pn f u (.ok t :: r2) []
  | [] => parse_expr_list_go pn f u [] []
  | .error e0 :: r2 => parse_expr_list_go pn f u (.error e0 :: r2) []

/-- Identifiers, from `Parser::parse_identifier`: an identifier not
immediately followed by an open paren is a variable reference; otherwise
the paren is consumed and the argument list parsed into a function
call. -/
def parse_identifier (pn : Tokens → ParseOut) (f : Nat) (name : String)
    (ts : Tokens) : ParseOut :=
  match ts with
  | .ok t :: r2 =>
      if t = Token.OpenParen then
        match parse_expr_list pn f Token.CloseParen r2 with
        | .inr () => .outOfFuel
        | .inl (.ok args, rest) => .item (.ok (.FunctionCall name args)) rest
        | .inl (.error e, rest) => .item (.error e) rest
      else .item (.ok (.Variable name)) (.ok t :: r2)
  | [] => .item (.ok (.Variable name)) []
  | .error e0 :: r2 => .item (.ok (.Variable name)) (.error e0 :: r2)

/-- Conditionals, from `Parser::parse_if`: parse the condition and the
body as one unit each, then an else branch exactly when the next token is
`else`. -/
def parse_if (pn : Tokens → ParseOut) (ts : Tokens) : ParseOut :=
  match pn ts with
  | .outOfFuel => .outOfFuel
  | .eos => .item (.error .UnexpectedEOF) ts
  | .item (.error e) rest => .item (.error e) rest
  | .item (.ok c) rest =>
      match pn rest with
      | .outOfFuel => .outOfFuel
      | .eos => .item (.error .UnexpectedEOF) rest
      | .item (.error e) rest2 => .item (.error e) rest2
      | .item (.ok b) rest2 =>
          match rest2 with
          | .ok t :: r3 =>
              if t = Token.Else then
                match pn r3 with
                | .outOfFuel => .outOfFuel
                | .eos => .item (.error .UnexpectedEOF) r3
                | .item (.error e) rest3 => .item (.error e) rest3
                | .item (.ok el) rest3 => .item (.ok (.IfExpr c b (some el))) rest3
              else .item (.ok (.IfExpr c b none)) (.ok t :: r3)
          | [] => .item (.ok (.IfExpr c b none)) []
          | .error e0 :: r3 => .item (.ok (.IfExpr c b none)) (.error e0 :: r3)

/-- While loops, from `Parser::parse_while`: condition and body, one
unit each. -/
def parse_while (pn : Tokens → ParseOut) (ts : Tokens) : ParseOut :=
  match pn ts with
  | .outOfFuel => .outOfFuel
  | .eos => .item (.error .UnexpectedEOF) ts
  | .item (.error e) rest => .item (.error e) rest
  | .item (.ok c) rest =>
      match pn rest with
      | .outOfFuel => .outOfFuel
      | .eos => .item (.error .UnexpectedEOF) rest
      | .item (.error e) rest2 => .item (.error e) rest2
      | .item (.ok b) rest2 => .item (.ok (.WhileLoop c b)) rest2

/-- The tail of `Parser::next` after the left-hand unit is parsed: peek
one token; a binary-operator token is consumed and the right-hand side
parsed recursively, then reconciled by `apply_precedence`; an `=` after a
bare variable reference becomes an assignment; anything else (including a
peeked scan error, which stays in the stream) returns the left-hand unit
as is. -/
def finish_expr (pn : Tokens → ParseOut) (lhs : Expression) (ts : Tokens) :
    ParseOut :=
  match ts with
  | .ok nt :: r2 =>
      match Token.to_binary_op nt with
      | some op =>
          match pn r2 with
          | .outOfFuel => .outOfFuel
          | .eos => .item (.error .UnexpectedEOF) r2
          | .item (.error e) rest => .item (.error e) rest
          | .item (.ok rhs) rest => .item (.ok (apply_precedence lhs op rhs)) rest
      | none =>
          if nt = Token.Eq then
            match lhs with
            | .Variable v =>
                match pn r2 with
                | .outOfFuel => .outOfFuel
                | .eos => .item (.error .UnexpectedEOF) r2
                | .item (.error e) rest => .item (.error e) rest
                | .item (.ok rhs) rest => .item (.ok (.Assignment v rhs)) rest
            | lhs' => .item (.ok lhs') (.ok nt :: r2)
          else .item (.ok lhs) (.ok nt :: r2)
  | [] => .item (.ok lhs) []
  | .error e0 :: r2 => .item (.ok lhs) (.error e0 :: r2)

/-- One parser pull, from `Parser::next` (the `Iterator` impl): dispatch
on the first token to build the left-hand unit, then `finish_expr`. -/
def parserNext : Nat → Tokens → ParseOut
  | 0, _ => .outOfFuel
  | f + 1, ts =>
      match ts with
      | [] => .eos
      | .error e :: rest => .item (.error (.ScanError e)) rest
      | .ok t :: rest =>
          let pn : Tokens → ParseOut := fun ts' => parserNext f ts'
          let step : ParseOut :=
            match t with
            | .Nil => .item (.ok .NilLiteral) rest
            | .Boolean b => .item (.ok (.BooleanLiteral b)) rest
            | .Number n => .item (.ok (.NumberLiteral n)) rest
            | .String s => .item (.ok (.StrLiteral s)) rest
            | .OpenParen => parse_paren_expr pn rest
            | .OpenCurly => parse_block pn f rest []
            | .Identifier s => parse_identifier pn f s rest
            | .If => parse_if pn rest
            | .While => parse_while pn rest
            | t' => .item (.error (.Unexpected t')) rest
          match step with
          | .outOfFuel => .outOfFuel
          | .eos => .eos
          | .item (.error e) rest' => .item (.error e) rest'
          | .item (.ok lhs) rest' => finish_expr pn lhs rest'

/-- All top-level items of a token stream: pull `Parser::next` until the
iterator finishes. -/
def parseAll : Nat → Tokens → List (Except ParseError Expression)
  | 0, _ => []
  | f + 1, ts =>
      match parserNext (f + 1) ts with
      | .outOfFuel => []
      | .eos => []
      | .item r rest => r :: parseAll f rest

/-- End-to-end front end: scan a source string and parse every
top-level item, as the shell in `main.rs` does. -/
def parse_string (f : Nat) (s : String) : List (Except ParseError Expression) :=
  parseAll f (tokenize f s.toList)

/-! ## Specification-side predicates -/

/-- Spec-side test that an expression's top operator, if any, binds at
least as tightly as rank `k`. -/
def topBindsAtLeast (k : Nat) : Expression → Bool
  | .BinaryExpr _ op _ => decide (k ≤ op.precendence)
  | _ => true

/-- Spec-side right-spine invariant: walking right children from the
root of a binary tree, operator precedence ranks never decrease.  This is
the invariant `apply_precedence` actually maintains. -/
def spineOk : Expression → Bool
  | .BinaryExpr _ op r => topBindsAtLeast op.precendence r && spineOk r
  | _ => true

/-- Spec-side rendering of "the tree respects the precedence ranks":
no binary node has a child subtree whose top operator binds strictly less
tightly than the node's own operator. -/
def precRespects : Expression → Bool
  | .BinaryExpr l op r =>
      precRespects l && precRespects r
        && topBindsAtLeast op.precendence l && topBindsAtLeast op.precendence r
  | _ => true

/-- Spec-side description of a string-literal body on which
`read_string`'s scan runs off the end of the input: no unescaped closing
quote, every backslash followed by a valid escape character. -/
def unterminatedBody : List Char → Bool
  | [] => true
  | c :: rest =>
      if c = '"' then false
      else if c = '\\' then
        match rest with
        | c2 :: rest2 => (c2 = '"' || c2 = '\\') && unterminatedBody rest2
        | [] => false
      else unterminatedBody rest

/-! ## Theorems -/

/-- Claim C1: for every arithmetic or relational operator (all operators
except `Eq`) applied to operands of which at least one is not a `Number`,
`BinaryOp::eval` returns `InvalidOperation` carrying the left operand's
type name, the operator, and the right operand's type name; in particular
`Add` on `Number(1)` and `Boolean(false)` fails that way; and no invalid
operation silently produces `Nil` (no result of `eval` is `Ok(Nil)` at
all). -/
theorem binary_op_invalid_operation (op : BinaryOp) (l r : Data)
    (hop : op ∈ [BinaryOp.Add, .Sub, .Mul, .Div, .Mod, .Lt, .LtEq, .Gt, .GtEq])
    (h : l.isNumber = false ∨ r.isNumber = false) :
    BinaryOp.eval op l r = .error (.InvalidOperation l.type_name op r.type_name)
    ∧ BinaryOp.eval .Add (.Number 1) (.Boolean false)
        = .error (.InvalidOperation "number" .Add "boolean")
    ∧ ∀ o a b, (BinaryOp.eval o a b = .ok Data.Nil) = False := by
  refine ⟨?_, rfl, ?_⟩
  · fin_cases hop <;> cases l <;> cases r <;>
      simp_all [BinaryOp.eval, Data.isNumber, Data.type_name]
  · intro o a b
    cases o <;> cases a <;> cases b <;> simp [BinaryOp.eval]

/-- Witness for C1 at the spec's own example: `Add` applied to
`Number(1)` and `Boolean(false)`. -/
theorem binary_op_invalid_operation_witness :
    BinaryOp.eval .Add (.Number 1) (.Boolean false)
      = .error (.InvalidOperation "number" .Add "boolean") :=
  (binary_op_invalid_operation .Add (.Number 1) (.Boolean false)
    (by decide) (Or.inr rfl)).1

/-- Claim C2: a conditional first evaluates its condition (a condition
error propagates); any condition value other than exactly
`Boolean(false)` — including `Nil`, `Number(0)` and the empty string —
selects the body; exactly `Boolean(false)` selects the else branch when
present and yields `Nil` otherwise. -/
theorem if_expr_semantics (f : Nat) (c b : Expression) (eb : Option Expression)
    (p p' : Program) :
    (∀ v, evalE f c p = some (.ok v, p') →
      (v ≠ .Boolean false → evalE (f + 1) (.IfExpr c b eb) p = evalE f b p')
      ∧ (v = .Boolean false → ∀ e, eb = some e →
          evalE (f + 1) (.IfExpr c b eb) p = evalE f e p')
      ∧ (v = .Boolean false → eb = none →
          evalE (f + 1) (.IfExpr c b eb) p = some (.ok .Nil, p')))
    ∧ (∀ err, evalE f c p = some (.error err, p') →
        evalE (f + 1) (.IfExpr c b eb) p = some (.error err, p'))
    ∧ ((Data.Nil = .Boolean false) = False
        ∧ (Data.Number 0 = .Boolean false) = False
        ∧ (Data.Str "" = .Boolean false) = False) := by
  refine ⟨?_, ?_, by simp, by simp, by simp⟩
  · intro v hv
    refine ⟨fun hne => ?_, fun hv2 e he => ?_, fun hv2 he => ?_⟩
    · simp [evalE, hv, hne]
    · simp [evalE, hv, hv2, he]
    · simp [evalE, hv, hv2, he]
  · intro err herr
    simp [evalE, herr]

/-- Witness for C2: a `Nil` condition is truthy, so
`if nil 1 else 2` evaluates its body and yields `Number(1)`. -/
theorem if_expr_semantics_witness :
    evalE 2 (.IfExpr .NilLiteral (.NumberLiteral 1) (some (.NumberLiteral 2)))
      Program.new = some (.ok (.Number 1), Program.new) := by
  have h := ((if_expr_semantics 1 .NilLiteral (.NumberLiteral 1)
      (some (.NumberLiteral 2)) Program.new Program.new).1 Data.Nil rfl).1
      (by simp)
  rw [h]
  rfl

/-- Claim C4 (amended): a block pushes a fresh frame, evaluates **all**
its items in order, and pops the frame unconditionally; an item's error
does not stop the following items — the block's result is exactly the
final item's own result, so an earlier error is discarded whenever a
later item succeeds.  The first conjunct shows the unconditional
push/pop around the item sequence (the popped result `r` may be an error
or a value); the second shows the carried result of the preceding items
is ignored by the next item; the third shows the block result is the
last item's own result. -/
theorem block_eval_semantics (f : Nat) (es : List Expression) (p : Program)
    (ev : Ev) (e0 : Expression) (last last' : EvalResult) :
    (∀ r p', evalSeq (fun e' q => evalE f e' q) es (Program.new_scope p)
        (.ok .Nil) = some (r, p') →
      evalE (f + 1) (.Block es) p = some (r, Program.pop_scope p'))
    ∧ (evalSeq ev (e0 :: es) p last = evalSeq ev (e0 :: es) p last')
    ∧ (∀ r p'', es ≠ [] → evalSeq ev es p last = some (r, p'') →
        ∃ elast pmid, es.getLast? = some elast ∧ ev elast pmid = some (r, p'')) := by
  refine ⟨?_, rfl, ?_⟩
  · intro r p' h
    simp [evalE, h]
  · induction es generalizing p last with
    | nil => intro r p'' hne; simp at hne
    | cons e es ih =>
        intro r p'' _ h
        simp only [evalSeq] at h
        cases hev : ev e p with
        | none => rw [hev] at h; cases h
        | some rp =>
            obtain ⟨r0, p0⟩ := rp
            rw [hev] at h
            cases es with
            | nil =>
                simp only [evalSeq] at h
                cases h
                exact ⟨e, p, rfl, hev⟩
            | cons e1 es1 =>
                obtain ⟨elast, pmid, hl, hevl⟩ := ih p0 r0 r p'' (by simp) h
                exact ⟨elast, pmid, by simpa using hl, hevl⟩

/-- Witness for C4: a block whose first item fails with
`UndefinedVar("q")` still runs its second item (the assignment to the
outer `a` is visible afterwards) and returns that item's value. -/
theorem block_eval_semantics_witness :
    evalE 10 (.Block [.Variable "q", .Assignment "a" (.NumberLiteral 5)])
        [[("a", Data.Number 0)]]
      = some (.ok (.Number 5), [[("a", Data.Number 5)]]) :=
  (block_eval_semantics 9 [.Variable "q", .Assignment "a" (.NumberLiteral 5)]
      [[("a", Data.Number 0)]] (fun e q => evalE 9 e q) .NilLiteral
      (.ok .Nil) (.ok .Nil)).1
    (.ok (.Number 5)) [[], [("a", Data.Number 5)]] rfl

/-- Claim C4 counterexample: evaluating the block
`[q, a = 5]` with `q` undefined and `a` bound outside yields the
second item's value `Ok(Number 5)` — not the claimed abort with the
first item's error — and the later item's side effect on `a` shows it
was evaluated. -/
theorem block_error_not_aborting :
    evalE 10 (.Block [.Variable "q", .Assignment "a" (.NumberLiteral 5)])
        [[("a", Data.Number 0)]]
      = some (.ok (.Number 5), [[("a", Data.Number 5)]])
    ∧ ((Except.ok (Data.Number 5) : EvalResult)
        = .error (.UndefinedVar "q")) = False := by
  exact ⟨rfl, by simp⟩

/-- Claim C5 (amended): the while loop stops the moment the condition
evaluates to exactly `Boolean(false)`, returning the carried result of
the last executed body evaluation (`Ok(Nil)` when the body never ran);
a condition error propagates; but a body error does **not** abort the
loop — the loop continues with the error merely recorded as the carried
result, so it is the loop's value only if it is still the most recent
body result when the condition turns false. -/
theorem while_loop_semantics (ev : Ev) (f : Nat) (c b : Expression)
    (p p' p'' : Program) (last r : EvalResult) (d : Data)
    (err : ExecuteError) :
    (evalE (f + 1) (.WhileLoop c b) p
      = evalWhile (fun e' q => evalE f e' q) f c b p (.ok .Nil))
    ∧ (ev c p = some (.ok (.Boolean false), p') →
        evalWhile ev (f + 1) c b p last = some (last, p'))
    ∧ (ev c p = some (.ok d, p') → d ≠ .Boolean false →
        ev b p' = some (r, p'') →
        evalWhile ev (f + 1) c b p last = evalWhile ev f c b p'' r)
    ∧ (ev c p = some (.error err, p') →
        evalWhile ev (f + 1) c b p last = some (.error err, p')) := by
  refine ⟨rfl, ?_, ?_, ?_⟩
  · intro h
    simp [evalWhile, h]
  · intro hc hd hb
    simp [evalWhile, hc, hd, hb]
  · intro h
    simp [evalWhile, h]

/-- Witness for C5: one loop whose condition is immediately false
returns the carried `Ok(Nil)`, and one iteration step with a true
condition continues into the next `evalWhile` state with the body's
result carried. -/
theorem while_loop_semantics_witness :
    evalWhile (fun e q => evalE 3 e q) 1 (.BooleanLiteral false) .NilLiteral
        Program.new (.ok .Nil) = some (.ok .Nil, Program.new)
    ∧ evalWhile (fun e q => evalE 3 e q) 1 (.BooleanLiteral true)
        (.NumberLiteral 7) Program.new (.ok .Nil)
      = evalWhile (fun e q => evalE 3 e q) 0 (.BooleanLiteral true)
        (.NumberLiteral 7) Program.new (.ok (.Number 7)) :=
  ⟨(while_loop_semantics (fun e q => evalE 3 e q) 0 (.BooleanLiteral false)
      .NilLiteral Program.new Program.new Program.new (.ok .Nil) (.ok .Nil)
      (.Boolean false) (.UndefinedVar "")).2.1 rfl,
   (while_loop_semantics (fun e q => evalE 3 e q) 0 (.BooleanLiteral true)
      (.NumberLiteral 7) Program.new Program.new Program.new (.ok .Nil)
      (.ok (.Number 7)) (.Boolean true) (.UndefinedVar "")).2.2.1 rfl
      (by simp) rfl⟩

/-- Claim C5 counterexample: a loop over `x` starting at `0` with
condition `x < 2` whose body errors with `UndefinedVar("zz")` on the
first iteration (when `x == 1` after the increment) and yields
`Number(7)` on the second finishes with `Ok(Number 7)` and `x = 2`:
the body error did not abort the loop and is not the loop's result. -/
theorem while_body_error_not_aborting :
    evalE 20 (.WhileLoop (.BinaryExpr (.Variable "x") .Lt (.NumberLiteral 2))
        (.Block [.Assignment "x" (.BinaryExpr (.Variable "x") .Add (.NumberLiteral 1)),
                 .IfExpr (.BinaryExpr (.Variable "x") .Eq (.NumberLiteral 1))
                   (.Variable "zz") (some (.NumberLiteral 7))]))
        [[("x", Data.Number 0)]]
      = some (.ok (.Number 7), [[("x", Data.Number 2)]])
    ∧ ((Except.ok (Data.Number 7) : EvalResult)
        = .error (.UndefinedVar "zz")) = False := by
  exact ⟨by with_unfolding_all rfl, by simp⟩

/-- Claim C8 (amended): `if nil 1 else 2` (with block-wrapped branches
as parsed from `if nil { 1 } else { 2 }`) evaluates to `Number(1)`:
`Nil` is **truthy** in a conditional, because the evaluator tests
`!= Boolean(false)`, so the body is taken, consistently with the
conditional rule of claim C2.  Shown end to end: the source text parses
to the conditional, and that conditional evaluates to `Number(1)`. -/
theorem if_nil_takes_body :
    parse_string 32 "if nil { 1 } else { 2 }"
      = [.ok (.IfExpr .NilLiteral (.Block [.NumberLiteral 1])
          (some (.Block [.NumberLiteral 2])))]
    ∧ evalE 8 (.IfExpr .NilLiteral (.Block [.NumberLiteral 1])
          (some (.Block [.NumberLiteral 2]))) Program.new
      = some (.ok (.Number 1), Program.new) := by
  exact ⟨by with_unfolding_all rfl, by with_unfolding_all rfl⟩

/-- Claim C8 counterexample: the conditional with a `nil` condition
evaluates to `Number(1)`, not the claimed `Number(2)`; `Nil` is not
falsy in a conditional. -/
theorem if_nil_counterexample :
    evalE 8 (.IfExpr .NilLiteral (.Block [.NumberLiteral 1])
        (some (.Block [.NumberLiteral 2]))) Program.new
      = some (.ok (.Number 1), Program.new)
    ∧ (Data.Number 1 = Data.Number 2) = False := by
  exact ⟨by with_unfolding_all rfl, by simp⟩

/-- Claim C9: a digit immediately after `-` is scanned as one signed
number literal, so `3-2` scans as the two tokens `Number(3)` and
`Number(-2)` and parses as two separate top-level number literals,
not a subtraction. -/
theorem minus_digit_scans_signed_number :
    tokenize 16 ("3-2".toList) = [.ok (.Number 3), .ok (.Number (-2))]
    ∧ parse_string 32 "3-2"
      = [.ok (.NumberLiteral 3), .ok (.NumberLiteral (-2))] := by
  exact ⟨by with_unfolding_all rfl, by with_unfolding_all rfl⟩

/-- Claim C10: in an argument list, a comma immediately followed by the
closing parenthesis is rejected: `foo(1,)` yields
`ParseError::Unexpected(Token::CloseParen)`, because after the comma the
parser parses another expression and hits the close paren there. -/
theorem trailing_comma_rejected :
    parse_string 32 "foo(1,)" = [.error (.Unexpected Token.CloseParen)] := by
  with_unfolding_all rfl

/-- Claim C7 (amended): the modulo character `%` is **not** in the
scanner's token set; no token converts to `BinaryOp::Mod`, so although
`Mod` is fully supported downstream (precedence rank 2 and a working
evaluator, `17 % 4 = 1`), a modulo expression can never reach the parser
from source text. -/
theorem modulo_unreachable_from_tokens :
    (∀ t : Token, decide (t.to_binary_op = some BinaryOp.Mod) = false)
    ∧ BinaryOp.precendence .Mod = 2
    ∧ BinaryOp.eval .Mod (.Number 17) (.Number 4) = .ok (.Number 1) := by
  refine ⟨?_, rfl, by with_unfolding_all rfl⟩
  intro t
  cases t <;> simp [Token.to_binary_op]

/-- Claim C7 counterexample: scanning `1 % 2` yields an
`UnexpectedChar('%')` error between the two number tokens, not a modulo
operator token. -/
theorem modulo_not_scanned :
    tokenize 16 ("1 % 2".toList)
      = [.ok (.Number 1), .error (.UnexpectedChar '%'), .ok (.Number 2)] := by
  with_unfolding_all rfl

/-- Helper: on any string-literal body whose scan runs off the end of
the input (`unterminatedBody`), the `read_string` loop reports
`IncompleteString`, for every accumulated buffer. -/
theorem read_string_go_incomplete :
    ∀ body acc : List Char, unterminatedBody body = true →
      read_string_go body acc = (.error .IncompleteString, []) := by
  intro body acc
  induction body, acc using read_string_go.induct with
  | case1 acc => intro _; rfl
  | case2 rest acc =>
      intro h
      have e1 : unterminatedBody ('"' :: rest) = false := by
        rw [unterminatedBody.eq_def]
        rfl
      rw [e1] at h
      cases h
  | case3 acc c2 rest2 hc2 hq ih =>
      intro h
      have e1 : unterminatedBody ('\\' :: c2 :: rest2)
          = ((decide (c2 = '"') || decide (c2 = '\\'))
              && unterminatedBody rest2) := by
        rw [unterminatedBody.eq_def]
        rfl
      have e2 : read_string_go ('\\' :: c2 :: rest2) acc
          = if (decide (c2 = '"') || decide (c2 = '\\')) = true
            then read_string_go rest2 (acc ++ [c2])
            else (.error .InvalidEscape, c2 :: rest2) := by
        rw [read_string_go.eq_def]
        rfl
      rw [e1, Bool.and_eq_true] at h
      rw [e2, if_pos hc2]
      exact ih h.2
  | case4 acc c2 rest2 hc2 hq =>
      intro h
      have e1 : unterminatedBody ('\\' :: c2 :: rest2)
          = ((decide (c2 = '"') || decide (c2 = '\\'))
              && unterminatedBody rest2) := by
        rw [unterminatedBody.eq_def]
        rfl
      rw [e1, Bool.and_eq_true] at h
      exact absurd h.1 hc2
  | case5 acc hq =>
      intro h
      have e1 : unterminatedBody ['\\'] = false := by
        rw [unterminatedBody.eq_def]
        rfl
      rw [e1] at h
      cases h
  | case6 c rest acc hq hb ih =>
      intro h
      rw [unterminatedBody.eq_def] at h
      simp only [hq, hb] at h
      rw [read_string_go.eq_def]
      simp only [hq, hb, if_false]
      exact ih h

/-- Claim C6 (amended): whenever a string literal is opened with `"` and
the scan runs off the end of the input without hitting an invalid or
dangling escape, the scanner yields `IncompleteString`, which is a
distinct constructor from `InvalidEscape` and from every
`UnexpectedChar`; an input ending inside an escape (a dangling
backslash, or a backslash before an unsupported character) yields
`InvalidEscape` instead even though no closing quote was found. -/
theorem read_string_incomplete (body : List Char)
    (h : unterminatedBody body = true) :
    (read_string ('"' :: body)).1 = .error .IncompleteString
    ∧ (TokenError.IncompleteString = .InvalidEscape) = False
    ∧ ∀ ch, (TokenError.IncompleteString = .UnexpectedChar ch) = False := by
  refine ⟨?_, by simp, fun ch => by simp⟩
  rw [read_string, read_string_go_incomplete body [] h]

/-- Witness for C6: the unterminated literal `"abc` scans to
`IncompleteString`. -/
theorem read_string_incomplete_witness :
    (read_string ('"' :: "abc".toList)).1 = .error .IncompleteString :=
  (read_string_incomplete "abc".toList (by decide)).1

/-- Claim C6 counterexample: the input `"\` — a string opened with `"`
whose end of input is reached before any closing quote — scans to
`InvalidEscape`, not `IncompleteString`, both in `read_string` itself
and through the scanner. -/
theorem read_string_trailing_backslash :
    read_string ['"', '\\'] = (.error .InvalidEscape, [])
    ∧ tokenize 4 ['"', '\\'] = [.error .InvalidEscape]
    ∧ (TokenError.InvalidEscape = .IncompleteString) = False := by
  exact ⟨rfl, rfl, by simp⟩

/-- Helper: `apply_precedence` preserves the right-spine invariant of its
right-hand side. -/
theorem spineOk_apply_precedence (lhs : Expression) (op : BinaryOp)
    (rhs : Expression) (h : spineOk rhs = true) :
    spineOk (apply_precedence lhs op rhs) = true := by
  cases rhs with
  | BinaryExpr l' op' r' =>
      rw [apply_precedence]
      by_cases hc : op'.precendence < op.precendence
      · rw [if_pos hc]
        rw [spineOk] at h ⊢
        exact h
      · rw [if_neg hc]
        rw [spineOk, topBindsAtLeast]
        rw [spineOk] at h
        simp only [Bool.and_eq_true, decide_eq_true_eq]
        exact ⟨Nat.le_of_not_lt hc, by rw [spineOk]; exact h⟩
  | NilLiteral => simp [apply_precedence, spineOk, topBindsAtLeast]
  | BooleanLiteral b => simp [apply_precedence, spineOk, topBindsAtLeast]
  | NumberLiteral n => simp [apply_precedence, spineOk, topBindsAtLeast]
  | StrLiteral s => simp [apply_precedence, spineOk, topBindsAtLeast]
  | Variable v => simp [apply_precedence, spineOk, topBindsAtLeast]
  | ParenExpr inner => simp [apply_precedence, spineOk, topBindsAtLeast]
  | Block es => simp [apply_precedence, spineOk, topBindsAtLeast]
  | Assignment l r => simp [apply_precedence, spineOk, topBindsAtLeast]
  | FunctionCall n a => simp [apply_precedence, spineOk, topBindsAtLeast]
  | IfExpr c b eb => simp [apply_precedence, spineOk, topBindsAtLeast]
  | WhileLoop c b => simp [apply_precedence, spineOk, topBindsAtLeast]

/-- Helper: a parenthesized-expression parse yields a `ParenExpr`, whose
right spine is trivially fine. -/
theorem parse_paren_expr_shape (pn : Tokens → ParseOut) (ts : Tokens)
    (e : Expression) (rest : Tokens)
    (h : parse_paren_expr pn ts = .item (.ok e) rest) : spineOk e = true := by
  unfold parse_paren_expr at h
  split at h <;> try simp at h
  all_goals try (split at h <;> try simp at h)
  all_goals try (split at h <;> try simp at h)
  all_goals (obtain ⟨h1, h2⟩ := h; rw [← h1]; simp [spineOk])

/-- Helper: a block parse yields a `Block`, whose right spine is
trivially fine. -/
theorem parse_block_shape (pn : Tokens → ParseOut) :
    ∀ (f : Nat) (ts : Tokens) (acc : List Expression) (e : Expression)
      (rest : Tokens), parse_block pn f ts acc = .item (.ok e) rest →
      spineOk e = true := by
  intro f
  induction f with
  | zero =>
      intro ts acc e rest h
      rw [parse_block.eq_def] at h
      simp at h
  | succ f ih =>
      intro ts acc e rest h
      rw [parse_block.eq_def] at h
      simp only [] at h
      split at h <;> try simp at h
      all_goals try (split at h <;> try simp at h)
      all_goals try (split at h <;> try simp at h)
      all_goals
        first
          | exact ih _ _ _ _ h
          | (obtain ⟨h1, h2⟩ := h; rw [← h1]; simp [spineOk])

/-- Helper: an identifier parse yields a `Variable` or `FunctionCall`,
whose right spine is trivially fine. -/
theorem parse_identifier_shape (pn : Tokens → ParseOut) (f : Nat)
    (name : String) (ts : Tokens) (e : Expression) (rest : Tokens)
    (h : parse_identifier pn f name ts = .item (.ok e) rest) :
    spineOk e = true := by
  unfold parse_identifier at h
  split at h <;> try simp at h
  all_goals try (split at h <;> try simp at h)
  all_goals try (split at h <;> try simp at h)
  all_goals (obtain ⟨h1, h2⟩ := h; rw [← h1]; simp [spineOk])

/-- Helper: an `if` parse yields an `IfExpr`, whose right spine is
trivially fine. -/
theorem parse_if_shape (pn : Tokens → ParseOut) (ts : Tokens)
    (e : Expression) (rest : Tokens)
    (h : parse_if pn ts = .item (.ok e) rest) : spineOk e = true := by
  unfold parse_if at h
  split at h <;> try simp at h
  all_goals try (split at h <;> try simp at h)
  all_goals try (split at h <;> try simp at h)
  all_goals try (split at h <;> try simp at h)
  all_goals try (split at h <;> try simp at h)
  all_goals (obtain ⟨h1, h2⟩ := h; rw [← h1]; simp [spineOk])

/-- Helper: a `while` parse yields a `WhileLoop`, whose right spine is
trivially fine. -/
theorem parse_while_shape (pn : Tokens → ParseOut) (ts : Tokens)
    (e : Expression) (rest : Tokens)
    (h : parse_while pn ts = .item (.ok e) rest) : spineOk e = true := by
  unfold parse_while at h
  split at h <;> try simp at h
  all_goals try (split at h <;> try simp at h)
  all_goals (obtain ⟨h1, h2⟩ := h; rw [← h1]; simp [spineOk])

/-- Helper: the tail of `Parser::next` preserves the right-spine
invariant, assuming the recursive parser `pn` produces only
right-spine-invariant expressions and the left-hand unit satisfies it. -/
theorem finish_expr_spineOk (pn : Tokens → ParseOut) (lhs : Expression)
    (ts : Tokens) (e : Expression) (rest : Tokens)
    (hpn : ∀ ts' e' r', pn ts' = .item (.ok e') r' → spineOk e' = true)
    (hl : spineOk lhs = true)
    (h : finish_expr pn lhs ts = .item (.ok e) rest) : spineOk e = true := by
  unfold finish_expr at h
  split at h <;> try simp at h
  all_goals try (split at h <;> try simp at h)
  all_goals try (split at h <;> try simp at h)
  all_goals try (split at h <;> try simp at h)
  all_goals try (split at h <;> try simp at h)
  all_goals
    first
      | (rename_i heq
         obtain ⟨h1, h2⟩ := h
         rw [← h1]
         exact spineOk_apply_precedence _ _ _ (hpn _ _ _ heq))
      | (obtain ⟨h1, h2⟩ := h; rw [← h1]; simp [spineOk])
      | (obtain ⟨h1, h2⟩ := h; rw [← h1]; exact hl)

/-- Helper: every expression produced by a pull of `Parser::next`
satisfies the right-spine invariant: along the right spine of a parsed
binary tree, operator precedences never decrease. -/
theorem parserNext_spineOk :
    ∀ (f : Nat) (ts : Tokens) (e : Expression) (rest : Tokens),
      parserNext f ts = .item (.ok e) rest → spineOk e = true := by
  intro f
  induction f with
  | zero =>
      intro ts e rest h
      simp [parserNext] at h
  | succ f ih =>
      intro ts e rest h
      rw [parserNext.eq_def] at h
      match ts with
      | [] => simp at h
      | .error e0 :: ts0 => simp at h
      | .ok t :: ts0 =>
          have hpn : ∀ ts' e' r',
              parserNext f ts' = .item (.ok e') r' → spineOk e' = true :=
            fun ts' e' r' hh => ih ts' e' r' hh
          cases t with
          | Nil =>
              simp only [] at h
              exact finish_expr_spineOk _ _ _ _ _ hpn (by simp [spineOk]) h
          | Boolean b =>
              simp only [] at h
              exact finish_expr_spineOk _ _ _ _ _ hpn (by simp [spineOk]) h
          | Number n =>
              simp only [] at h
              exact finish_expr_spineOk _ _ _ _ _ hpn (by simp [spineOk]) h
          | String s =>
              simp only [] at h
              exact finish_expr_spineOk _ _ _ _ _ hpn (by simp [spineOk]) h
          | OpenParen =>
              simp only [] at h
              cases hs : parse_paren_expr (fun ts' => parserNext f ts') ts0 with
              | outOfFuel => rw [hs] at h; simp at h
              | eos => rw [hs] at h; simp at h
              | item r rest' =>
                  cases r with
                  | error e0 => rw [hs] at h; simp at h
                  | ok lhs =>
                      rw [hs] at h
                      exact finish_expr_spineOk _ _ _ _ _ hpn
                        (parse_paren_expr_shape _ _ _ _ hs) h
          | OpenCurly =>
              simp only [] at h
              cases hs : parse_block (fun ts' => parserNext f ts') f ts0 [] with
              | outOfFuel => rw [hs] at h; simp at h
              | eos => rw [hs] at h; simp at h
              | item r rest' =>
                  cases r with
                  | error e0 => rw [hs] at h; simp at h
                  | ok lhs =>
                      rw [hs] at h
                      exact finish_expr_spineOk _ _ _ _ _ hpn
                        (parse_block_shape _ _ _ _ _ _ hs) h
          | Identifier s =>
              simp only [] at h
              cases hs : parse_identifier (fun ts' => parserNext f ts') f s ts0 with
              | outOfFuel => rw [hs] at h; simp at h
              | eos => rw [hs] at h; simp at h
              | item r rest' =>
                  cases r with
                  | error e0 => rw [hs] at h; simp at h
                  | ok lhs =>
                      rw [hs] at h
                      exact finish_expr_spineOk _ _ _ _ _ hpn
                        (parse_identifier_shape _ _ _ _ _ _ hs) h
          | If =>
              simp only [] at h
              cases hs : parse_if (fun ts' => parserNext f ts') ts0 with
              | outOfFuel => rw [hs] at h; simp at h
              | eos => rw [hs] at h; simp at h
              | item r rest' =>
                  cases r with
                  | error e0 => rw [hs] at h; simp at h
                  | ok lhs =>
                      rw [hs] at h
                      exact finish_expr_spineOk _ _ _ _ _ hpn
                        (parse_if_shape _ _ _ _ hs) h
          | While =>
              simp only [] at h
              cases hs : parse_while (fun ts' => parserNext f ts') ts0 with
              | outOfFuel => rw [hs] at h; simp at h
              | eos => rw [hs] at h; simp at h
              | item r rest' =>
                  cases r with
                  | error e0 => rw [hs] at h; simp at h
                  | ok lhs =>
                      rw [hs] at h
                      exact finish_expr_spineOk _ _ _ _ _ hpn
                        (parse_while_shape _ _ _ _ hs) h
          | CloseParen => simp at h
          | CloseCurly => simp at h
          | Comma => simp at h
          | Eq => simp at h
          | DoubleEq => simp at h
          | Lt => simp at h
          | LtEq => simp at h
          | Gt => simp at h
          | GtEq => simp at h
          | Plus => simp at h
          | Minus => simp at h
          | Times => simp at h
          | Divide => simp at h
          | Else => simp at h

/-- Claim C3 (amended): when a right-hand side is itself a binary
expression whose operator rank is strictly lower than the outer
operator's, `apply_precedence` rotates once, so `a OP1 (b OP2 c)`
becomes `(a OP1 b) OP2 c`; otherwise it builds the plain node.  The
check is applied only once, never recursively — what the parser actually
guarantees is the right-spine invariant (precedence ranks never decrease
along the right spine of any parsed expression), which `apply_precedence`
preserves and every `Parser::next` output satisfies; full
precedence-respect of the whole tree can still fail for chains of three
or more operators.  The ranks are Eq=0, Lt/LtEq/Gt/GtEq=1, Mod=2,
Add/Sub=3, Mul/Div=4. -/
theorem apply_precedence_rotation (lhs l' r' : Expression)
    (op op' : BinaryOp) (f : Nat) (ts : Tokens) :
    (op'.precendence < op.precendence →
      apply_precedence lhs op (.BinaryExpr l' op' r')
        = .BinaryExpr (.BinaryExpr lhs op l') op' r')
    ∧ (¬ op'.precendence < op.precendence →
      apply_precedence lhs op (.BinaryExpr l' op' r')
        = .BinaryExpr lhs op (.BinaryExpr l' op' r'))
    ∧ (∀ rhs, spineOk rhs = true →
        spineOk (apply_precedence lhs op rhs) = true)
    ∧ (∀ e rest, parserNext f ts = .item (.ok e) rest → spineOk e = true)
    ∧ (BinaryOp.precendence .Eq = 0 ∧ BinaryOp.precendence .Lt = 1
        ∧ BinaryOp.precendence .LtEq = 1 ∧ BinaryOp.precendence .Gt = 1
        ∧ BinaryOp.precendence .GtEq = 1 ∧ BinaryOp.precendence .Mod = 2
        ∧ BinaryOp.precendence .Add = 3 ∧ BinaryOp.precendence .Sub = 3
        ∧ BinaryOp.precendence .Mul = 4 ∧ BinaryOp.precendence .Div = 4) := by
  refine ⟨fun hc => ?_, fun hc => ?_, fun rhs h => spineOk_apply_precedence _ _ _ h,
    fun e rest h => parserNext_spineOk f ts e rest h,
    rfl, rfl, rfl, rfl, rfl, rfl, rfl, rfl, rfl, rfl⟩
  · rw [apply_precedence, if_pos hc]
  · rw [apply_precedence, if_neg hc]

/-- Witness for C3: the rotation fires on `1 * (2 + 3)` giving
`(1 * 2) + 3`, and the parse of `1 + 2 * 3` satisfies the right-spine
invariant. -/
theorem apply_precedence_rotation_witness :
    apply_precedence (.NumberLiteral 1) .Mul
        (.BinaryExpr (.NumberLiteral 2) .Add (.NumberLiteral 3))
      = .BinaryExpr (.BinaryExpr (.NumberLiteral 1) .Mul (.NumberLiteral 2))
          .Add (.NumberLiteral 3)
    ∧ spineOk (.BinaryExpr (.NumberLiteral 1) .Add
        (.BinaryExpr (.NumberLiteral 2) .Mul (.NumberLiteral 3))) = true :=
  ⟨(apply_precedence_rotation (.NumberLiteral 1) (.NumberLiteral 2)
      (.NumberLiteral 3) .Mul .Add 32
      (tokenize 32 ("1 + 2 * 3".toList))).1 (by decide),
   (apply_precedence_rotation (.NumberLiteral 1) (.NumberLiteral 2)
      (.NumberLiteral 3) .Mul .Add 32
      (tokenize 32 ("1 + 2 * 3".toList))).2.2.2.1
     (.BinaryExpr (.NumberLiteral 1) .Add
        (.BinaryExpr (.NumberLiteral 2) .Mul (.NumberLiteral 3)))
     (tokenize 0 []) (by with_unfolding_all rfl)⟩

/-- Claim C3 counterexample: the chain `1 * 2 < 3 == 4` parses to
`(1 * (2 < 3)) == 4` — the `Mul` node's right child is a lower-ranked
`Lt` expression — so the final tree does not respect the precedence
ranks (a precedence-respecting parse would be `((1 * 2) < 3) == 4`);
the rotation is applied only to the topmost right-hand side and is not
recursed into the rotated tree's new left child. -/
theorem precedence_not_respected :
    parse_string 32 "1 * 2 < 3 == 4"
      = [.ok (.BinaryExpr (.BinaryExpr (.NumberLiteral 1) .Mul
          (.BinaryExpr (.NumberLiteral 2) .Lt (.NumberLiteral 3))) .Eq
          (.NumberLiteral 4))]
    ∧ precRespects (.BinaryExpr (.BinaryExpr (.NumberLiteral 1) .Mul
          (.BinaryExpr (.NumberLiteral 2) .Lt (.NumberLiteral 3))) .Eq
          (.NumberLiteral 4)) = false := by
  exact ⟨by with_unfolding_all rfl, by with_unfolding_all rfl⟩

end Gate
